import Mathlib

/-!
Verification development for the SEMISparse-MM repository.

The repository contains two CUDA source files:
  cudaTensorCoreGemm.cu : host-side generator init_host_matrices, the dense
    tiled kernel compute_gemm, the fallback kernel simple_wmma_gemm, the host
    reference matMultiplyOnHost and main;
  code.cu : the sparse-path kernel semi_sparse.

This file gives a shallow embedding of the data model and of the index and
value computations of those functions, plus theorems about them.  Machine
matrices are modelled as flat buffers of type Nat to Rat (the source uses raw
pointers with flat index arithmetic; half and float values are modelled by
exact rationals, since every claim settled here is about data movement and
index arithmetic rather than about rounding).  Unsigned 32-bit arithmetic in
the kernel scheduler is modelled by explicit reduction mod 2 ^ 32.
-/

namespace SemiSparseMM

/-! Compile-time constants, from the macro block of cudaTensorCoreGemm.cu
(lines 72-149).  SHARED_MEMORY_LIMIT_64K is 1, so CHUNK_K is 4. -/

def WARP_SIZE : ℕ := 32
def M : ℕ := 16
def N : ℕ := 16
def K : ℕ := 16
def TILING_SIZE : ℕ := 16
def M_TILES : ℕ := 256
def N_TILES : ℕ := 256
def K_TILES : ℕ := 256
def M_GLOBAL : ℕ := M * M_TILES
def N_GLOBAL : ℕ := N * N_TILES
def K_GLOBAL : ℕ := K * K_TILES
def WARPS_PER_BLOCK : ℕ := 8
def CHUNK_K : ℕ := 4
def CHUNK_COPY_LINES_PER_WARP : ℕ := 4
def CHUNK_COPY_LINE_LANES : ℕ := 8
def BLOCK_ROW_WARPS : ℕ := 2
def BLOCK_COL_WARPS : ℕ := 4
def WARP_ROW_TILES : ℕ := 4
def WARP_COL_TILES : ℕ := 2
def BLOCK_ROW_TILES : ℕ := WARP_ROW_TILES * BLOCK_ROW_WARPS
def BLOCK_COL_TILES : ℕ := WARP_COL_TILES * BLOCK_COL_WARPS
def GLOBAL_MEM_STRIDE : ℕ := N_GLOBAL
def SHMEM_STRIDE : ℕ := N * BLOCK_ROW_TILES
def SHMEM_OFFSET : ℕ := N * WARP_ROW_TILES
def SKEW_HALF : ℕ := 16

/-- Modulus of the unsigned int arithmetic used by the kernels. -/
def UINT32 : ℕ := 2 ^ 32

/-! The tile scheduler, identical in compute_gemm (cudaTensorCoreGemm.cu
lines 267-274) and semi_sparse (code.cu lines 36-43).  block_pos is an
unsigned int that starts at blockIdx.x and advances by gridDim.x. -/

/-- cudaTensorCoreGemm.cu line 268: block_tile_i is
((block_pos * BLOCK_ROW_TILES) / N_TILES) * BLOCK_COL_TILES in unsigned
arithmetic. -/
def block_tile_i (p : ℕ) : ℕ := p * BLOCK_ROW_TILES % UINT32 / N_TILES * BLOCK_COL_TILES

/-- cudaTensorCoreGemm.cu line 269: block_tile_j is
(block_pos * BLOCK_COL_TILES) % N_TILES in unsigned arithmetic. -/
def block_tile_j (p : ℕ) : ℕ := p * BLOCK_COL_TILES % UINT32 % N_TILES

/-- The value of block_pos for block b of a grid of G blocks after n
advances of the grid-stride loop (line 267): it starts at blockIdx.x = b and
each iteration adds gridDim.x = G, in unsigned 32-bit arithmetic. -/
def blockPos (G b : ℕ) : ℕ → ℕ
  | 0 => b % UINT32
  | n + 1 => (blockPos G b n + G) % UINT32

/-- The exit test of the grid-stride loop (line 272): the block stops issuing
work when block_tile_i reaches M_TILES. -/
def stopsAt (p : ℕ) : Prop := M_TILES ≤ block_tile_i p

/-- Iteration n of the loop body executes in block b iff no earlier or equal
iteration hit the exit test. -/
def runsStep (G b n : ℕ) : Prop := ∀ m, m ≤ n → ¬ stopsAt (blockPos G b m)

/-- Position p is claimed by block b of a grid of G blocks: some executed
iteration of the grid-stride loop in block b has block_pos = p. -/
def visitsPos (G b p : ℕ) : Prop := ∃ n, runsStep G b n ∧ blockPos G b n = p

/-- A generous upper bound for the number of thread blocks a device can run
concurrently (real devices resident-block limits are far below this).  The
claims about the scheduler quantify over grid sizes up to this bound; beyond
roughly 2 ^ 29 blocks the unsigned multiplication in block_tile_i could wrap. -/
def MAX_CONCURRENT_BLOCKS : ℕ := 32768

/-! The sparsity codec of the host-side generator init_host_matrices
(cudaTensorCoreGemm.cu lines 196-233).  A 16 x 16 block is scanned row-major
(ii outer, jj inner); a position with the zero-info flag set contributes its
value to the compacted stream, sets bit (ii % 2) * 16 + jj of the packed word
sparse_info[ii / 2], and bumps the running count count_info. -/

/-- The row-major scan order of a 16 x 16 block: the (ii, jj) iteration of the
loops at lines 199-200, ii outer. -/
def scanPos : List (ℕ × ℕ) :=
  (List.range TILING_SIZE).flatMap fun ii => (List.range TILING_SIZE).map fun jj => (ii, jj)

/-- Value of the little-endian bit list bs as a natural number: the element at
index q has weight 2 ^ q. -/
def bitsToNat : List Bool → ℕ
  | [] => 0
  | bb :: bs => (if bb then 1 else 0) + 2 * bitsToNat bs

/-- The 32 mask bits of packed word k of a block with zero-info pattern P,
little-endian.  Source (line 203): position (ii, jj) sets bit
(ii % 2) * 16 + jj of word ii / 2, so word k holds row 2k in bits 0-15 and
row 2k + 1 in bits 16-31; the element at list index (ii % 2) * 16 + jj below
is exactly the bit the source sets. -/
def wordBits (P : ℕ → ℕ → Bool) (k : ℕ) : List Bool :=
  ((List.range TILING_SIZE).map fun jj => P (2 * k) jj) ++
    ((List.range TILING_SIZE).map fun jj => P (2 * k + 1) jj)

/-- Packed bitmask word k (the int sparse_info[k] of lines 198-209) of a block
with zero-info pattern P. -/
def maskWord (P : ℕ → ℕ → Bool) (k : ℕ) : ℕ := bitsToNat (wordBits P k)

/-- Number of set bits of a natural number. -/
def popcount : ℕ → ℕ
  | 0 => 0
  | n + 1 => (n + 1) % 2 + popcount ((n + 1) / 2)
decreasing_by exact Nat.div_lt_self (Nat.succ_pos n) one_lt_two

/-- Number of flagged positions in row ii of a block with zero-info pattern P. -/
def rowNZCount (P : ℕ → ℕ → Bool) (ii : ℕ) : ℕ :=
  ((List.range TILING_SIZE).filter fun jj => P ii jj).length

/-- The compacted value stream of one block: the values of the positions with
the zero-info flag set, in row-major scan order (the appends to a_new at
line 202 / b_new at line 222). -/
def encodeVals (P : ℕ → ℕ → Bool) (X : ℕ → ℕ → ℚ) : List ℚ :=
  (scanPos.filter fun pos => P pos.1 pos.2).map fun pos => X pos.1 pos.2

/-- The 256 mask bits of a block in row-major scan order. -/
def blockBits (P : ℕ → ℕ → Bool) : List Bool := scanPos.map fun pos => P pos.1 pos.2

/-- Modelled from the spec: the decode pass of the sparsity codec (spec 4.4).
The in-kernel decode loop of code.cu lines 126-169 is not compilable C++
(undefined SIZE2, subscripting the scalar int sparse_info1), so the decoder is
taken from the spec text: walk the mask bits in scan order; a set bit pulls the
next value from the compacted stream, an unset bit yields zero (the staging
buffer region is pre-zeroed). -/
def decodeBlock : List Bool → List ℚ → List ℚ
  | [], _ => []
  | bb :: ms, vs =>
    if bb then vs.headD 0 :: decodeBlock ms vs.tail else (0 : ℚ) :: decodeBlock ms vs

/-! Whole-matrix form of the encoder loops (lines 196-233): blocks are scanned
with i outer (M_GLOBAL / TILING_SIZE values) and j inner
(K_GLOBAL / TILING_SIZE values); the linear block index used for the output
arrays is i * (K_GLOBAL / TILING_SIZE) + j (lines 209, 211). -/

/-- Number of 16 x 16 blocks scanned by the encoder. -/
def NUM_BLOCKS : ℕ := M_GLOBAL / TILING_SIZE * (K_GLOBAL / TILING_SIZE)

/-- Flat buffer offset of position pos of block bi, from line 201:
(i * TILING_SIZE + ii) * K_GLOBAL + (j * TILING_SIZE + jj) with
bi = i * (K_GLOBAL / TILING_SIZE) + j. -/
def blockFlat (bi : ℕ) (pos : ℕ × ℕ) : ℕ :=
  (bi / (K_GLOBAL / TILING_SIZE) * TILING_SIZE + pos.1) * K_GLOBAL +
    (bi % (K_GLOBAL / TILING_SIZE) * TILING_SIZE + pos.2)

/-- The zero-info pattern of block bi inside a whole-matrix zero-info buffer zi. -/
def blockPattern (zi : ℕ → Bool) (bi : ℕ) : ℕ → ℕ → Bool :=
  fun ii jj => zi (blockFlat bi (ii, jj))

/-- Number of flagged positions of block bi (the increments of count_info
performed while scanning that block, line 204). -/
def blockNZCount (zi : ℕ → Bool) (bi : ℕ) : ℕ :=
  (scanPos.filter fun pos => blockPattern zi bi pos.1 pos.2).length

/-- The prefix-count table (A_tsize_info / B_tsize_info, lines 211 and 231):
count_info is a running total that is never reset between blocks, so the entry
of block bi is the entry of block bi - 1 plus the flagged-position count of
block bi. -/
def tsize_info (zi : ℕ → Bool) : ℕ → ℕ
  | 0 => blockNZCount zi 0
  | bi + 1 => tsize_info zi bi + blockNZCount zi (bi + 1)

/-- Scan order of the whole matrix: all positions of block 0, then of block 1,
and so on (block-row-major, matching the four nested loops of lines 216-227). -/
def matScan : List ℕ :=
  (List.range NUM_BLOCKS).flatMap fun bi => scanPos.map fun pos => blockFlat bi pos

/-- cudaTensorCoreGemm.cu line 175: B_zero_info is created as a vector of
false values and no statement of init_host_matrices ever assigns to it, so it
stays identically false. -/
def B_zero_info : ℕ → Bool := fun _ => false

/-- The compacted stream b_new produced by the B loop of init_host_matrices
(lines 216-227): a position is appended iff its B_zero_info flag is set, and
the appended value is read from the a buffer (line 222), not from b. -/
def b_new_stream (a : ℕ → ℚ) : List ℚ :=
  (matScan.filter fun off => B_zero_info off).map a

/-- The property the claim asserts for the B stream: the nonzero values of the
operand matrix itself, in scan order. -/
def matrixNonzeroVals (m : ℕ → ℚ) : List ℚ :=
  (matScan.filter fun off => decide (m off ≠ 0)).map m

/-! Index arithmetic of compute_gemm (cudaTensorCoreGemm.cu lines 242-421).
The same arithmetic appears verbatim in semi_sparse (code.cu) except inside
its A/B staging loop. -/

/-- Line 277: gmem_idx = (block_tile_i + warpId) * M * GLOBAL_MEM_STRIDE +
block_tile_j * N, the base offset into C (and later D) of the 16 rows
streamed by warp w of the tile (bi, bj); bi and bj are in 16-row tile units. -/
def gmem_idx (bi bj w : ℕ) : ℕ := (bi + w) * M * GLOBAL_MEM_STRIDE + bj * N

/-- Row of D (or C) written by warp w at inner iteration i of the streaming
loops (lines 282-287 and 413-417): flat offset gmem_idx + GLOBAL_MEM_STRIDE * i
lies in row (block_tile_i + w) * M + i. -/
def dCopyRow (p w i : ℕ) : ℕ := (block_tile_i p + w) * M + i

/-- Column of D (or C) written by lane l, float t of its int4 (4 floats per
lane, 32 lanes): flat offset contribution 4 * l + t on top of
block_tile_j * N. -/
def dCopyCol (p l t : ℕ) : ℕ := block_tile_j p * N + 4 * l + t

/-- Proposition: the tuple q = (b, n, w, i, l, t) denotes a store to D element
(r, c) performed by the final streaming loop (lines 413-417): block b of a
grid of G blocks, executed grid-stride iteration n, warp w, inner iteration i,
lane l, float component t. -/
def DWriteTuple (G : ℕ) (q : ℕ × ℕ × ℕ × ℕ × ℕ × ℕ) (r c : ℕ) : Prop :=
  q.1 < G ∧ runsStep G q.1 q.2.1 ∧ q.2.2.1 < WARPS_PER_BLOCK ∧ q.2.2.2.1 < K ∧
    q.2.2.2.2.1 < WARP_SIZE ∧ q.2.2.2.2.2 < 4 ∧
    dCopyRow (blockPos G q.1 q.2.1) q.2.2.1 q.2.2.2.1 = r ∧
    dCopyCol (blockPos G q.1 q.2.1) q.2.2.2.2.1 q.2.2.2.2.2 = c

/-- The global-memory buffers named in the two kernel signatures. -/
inductive Buf
  | A
  | B
  | C
  | D
  | A_new
  | B_new
  | A_sparse_info
  | A_tsize_info
  | B_sparse_info
  | B_tsize_info
deriving DecidableEq

/-- The base buffers of the global-memory stores of compute_gemm.  The only
store through a global pointer is the D stream at lines 411-417 (the stores at
lines 285 and 350 target the shared array shmem, and the fragment stores at
line 404 target shmem as well). -/
def computeGemmGlobalWriteBufs : List Buf := [Buf.D]

/-- The base buffers of the global-memory loads of warp w in compute_gemm:
the C stream at lines 278-287, and the A/B chunk copy whose base pointer
warp_ptr (lines 329-330) is A for warps 0-3 and B for warps 4-7.  D is never
loaded. -/
def computeGemmGlobalReadBufs (w : ℕ) : List Buf :=
  [Buf.C, if w < 4 then Buf.A else Buf.B]

/-! Staging of the A and B chunks into shared memory (lines 329-355), shared
with semi_sparse up to the extra loops the latter inserts. -/

/-- Lines 329-330: the flat offset of warp_ptr inside A (warps 0-3) or B
(warps 4-7): block_tile_i * M * K_GLOBAL + M * K_GLOBAL * (w % 4) * 2 for A,
block_tile_j * N * K_GLOBAL + N * K_GLOBAL * (w % 4) * 2 for B. -/
def warpPtrOff (bi bj w : ℕ) : ℕ :=
  if w < 4 then bi * M * K_GLOBAL + M * K_GLOBAL * (w % 4) * 2
  else bj * N * K_GLOBAL + N * K_GLOBAL * (w % 4) * 2

/-- The shared-memory row written by warp w, lane l at iteration it of the
chunk-copy loop (lines 337-355): the initial shmem_idx is
M * (w % 4) * 2 for warps 0-3 and N * (w % 4) * 2 + shmem_idx_b_off
(shmem_idx_b_off = BLOCK_COL_TILES * M, line 251) for warps 4-7, plus
laneId / CHUNK_COPY_LINE_LANES (line 345), advancing by
CHUNK_COPY_LINES_PER_WARP per iteration (line 354); the loop runs
((WARP_SIZE / 2) / CHUNK_COPY_LINES_PER_WARP) * 2 = 8 times. -/
def abCopyShmemRow (w l it : ℕ) : ℕ :=
  (if w < 4 then M * (w % 4) * 2 else N * (w % 4) * 2 + BLOCK_COL_TILES * M) +
    l / CHUNK_COPY_LINE_LANES + CHUNK_COPY_LINES_PER_WARP * it

/-- The flat source offset (in halves, relative to A or B) read by warp w,
lane l, iteration it, element s of its int4 (8 halves per int4), for the chunk
starting at tile_k: lane_ptr starts at warp_ptr + tile_k * K +
(laneId / CHUNK_COPY_LINE_LANES) * K_GLOBAL plus laneId % CHUNK_COPY_LINE_LANES
int4s (line 342), and advances by K_GLOBAL * CHUNK_COPY_LINES_PER_WARP halves
per iteration (line 353). -/
def abCopySrcOff (bi bj w tile_k l it s : ℕ) : ℕ :=
  warpPtrOff bi bj w + tile_k * K +
    (l / CHUNK_COPY_LINE_LANES + CHUNK_COPY_LINES_PER_WARP * it) * K_GLOBAL +
    8 * (l % CHUNK_COPY_LINE_LANES) + s

/-- Net contents of the A/B shared staging buffer for the chunk starting at
tile column tile_k * K: rows 0 to 127 hold 64-half slices of A rows
bi * M + r, rows 128 to 255 hold 64-half slices of B columns bj * N + (r - 128)
(B is column-major, so a column of B is contiguous with stride K_GLOBAL).
The lemma abCopy_staged below verifies this against the per-lane copy maps
abCopyShmemRow / abCopySrcOff, and abCopy_covers verifies that the copy loop
writes every row 0 to 255. -/
def shmemAB (Am Bm : ℕ → ℚ) (bi bj tile_k r cc : ℕ) : ℚ :=
  if r < BLOCK_COL_TILES * M then Am (bi * M * K_GLOBAL + r * K_GLOBAL + tile_k * K + cc)
  else Bm (bj * N * K_GLOBAL + (r - BLOCK_COL_TILES * M) * K_GLOBAL + tile_k * K + cc)

/-! The extra staging loops semi_sparse inserts before the chunk-copy loop
(code.cu lines 126-171).  Its first loop (lines 140-146) runs 64 times and
advances shmem_idx by CHUNK_COPY_LINES_PER_WARP each time; the loop at lines
155-162 advances shmem_idx further by CHUNK_COPY_LINES_PER_WARP per iteration,
with a trip count SIZE2 that is an undefined identifier (the file does not
compile); the loops at 148-153 and 164-169 do not advance shmem_idx.  The
dense chunk-copy loop (lines 175-183) then starts from the drifted shmem_idx. -/

/-- The shared-memory row written by iteration it of the dense chunk-copy loop
of semi_sparse, for warp w, lane l: the row the dense kernel would use, plus
the drift CHUNK_COPY_LINES_PER_WARP * 64 of the 64-iteration loop, plus the
unknown nonnegative drift extra of the SIZE2 loop. -/
def semiSparseCopyRow (w l extra it : ℕ) : ℕ :=
  abCopyShmemRow w l 0 + CHUNK_COPY_LINES_PER_WARP * 64 + extra +
    CHUNK_COPY_LINES_PER_WARP * it

/-- The six sparse-specific parameters of semi_sparse (code.cu lines 3-5). -/
def sparseParamBufs : List Buf :=
  [Buf.A_new, Buf.B_new, Buf.A_sparse_info, Buf.A_tsize_info,
   Buf.B_sparse_info, Buf.B_tsize_info]

/-- The base buffers of every global-memory dereference in the body of
semi_sparse, per warp w:
  C through src_gmem_warp_stream_ptr (code.cu lines 47, 54-55);
  A or B through warp_ptr (line 98), dereferenced via lane_ptr at lines 121,
    142, 158, 178;
  A or B through warp_sparse_ptr (lines 104-105, the kernel reinterprets the
    dense A/B pointers as int pointers), dereferenced at lines 129, 130, 135,
    136;
  D through dst_gmem_warp_stream_ptr (lines 241, 245).
warp_size_ptr (lines 106-107, also derived from A/B) is never dereferenced.
None of the six parameters A_new, B_new, A_sparse_info, A_tsize_info,
B_sparse_info, B_tsize_info occurs in the body after the signature. -/
def semiSparseDerefBufs (w : ℕ) : List Buf :=
  [Buf.C,
   if w < 4 then Buf.A else Buf.B,
   if w < 4 then Buf.A else Buf.B,
   Buf.D]

/-! The per-warp fragment computation of compute_gemm (lines 300-406).
Shared-memory float offsets are converted to (row, column) in the 128 x 128
tile image using SHMEM_STRIDE = 128 floats per row. -/

/-- Row, inside the 128 x 128 tile image, of element (x, y) of accumulator
fragment (i, j) of warp w: shmem_warp_tile_ptr (line 254) is float offset
(w / 2) * SHMEM_STRIDE * K * 2 + (w % 2) * SHMEM_OFFSET, the fragment adds
i * SHMEM_STRIDE * K + j * N (line 307), and a row-major 16 x 16 fragment
element (x, y) adds x * SHMEM_STRIDE + y. -/
def cFragRow (w i x : ℕ) : ℕ := w / 2 * (K * 2) + i * K + x

/-- Column companion of cFragRow. -/
def cFragCol (w j y : ℕ) : ℕ := w % 2 * SHMEM_OFFSET + j * N + y

/-- Shared A-region row of element (x, kk) of matrix_a fragment i of warp w:
shmem_idx_a = (warpId / 2) * M * 2 + i * M (line 367), row-major. -/
def aFragRow (w i x : ℕ) : ℕ := w / 2 * (M * 2) + i * M + x

/-- Shared B-region row of element (kk, y) of matrix_b fragment j of warp w:
shmem_idx_b = shmem_idx_b_off + (WARP_ROW_TILES * N) * (warpId % 2) + j * N
(line 377); the fragment is column-major, so matrix column y lives in shared
row shmem_idx_b + y. -/
def bFragRow (w j y : ℕ) : ℕ := BLOCK_COL_TILES * M + WARP_ROW_TILES * N * (w % 2) + j * N + y

/-- Value staged into the shared C/D tile image at (r, c) by the C streaming
loop (lines 281-287): warp r / K streams row r % K, lane c / 4 moves float
c % 4 of its int4; the source offset is gmem_idx + GLOBAL_MEM_STRIDE * i +
4 * laneId + t. -/
def shmemC (Cm : ℕ → ℚ) (bi bj r c : ℕ) : ℚ :=
  Cm (gmem_idx bi bj (r / K) + GLOBAL_MEM_STRIDE * (r % K) + 4 * (c / 4) + c % 4)

/-- One product term of the mma_sync accumulation (line 383): at chunk tc
(tile_k = tc * CHUNK_K), step ks, inner index kk, warp w, fragment (i, j),
element (x, y), the a fragment element (x, kk) is read from shared row
aFragRow at half column ks * K + kk (line 368) and the b fragment element
(kk, y) from shared row bFragRow at half column ks * K + kk (line 378). -/
def mmaTerm (Am Bm : ℕ → ℚ) (bi bj w i j x y tc ks kk : ℕ) : ℚ :=
  shmemAB Am Bm bi bj (tc * CHUNK_K) (aFragRow w i x) (ks * K + kk) *
    shmemAB Am Bm bi bj (tc * CHUNK_K) (bFragRow w j y) (ks * K + kk)

/-- Final accumulator value of element (x, y) of fragment (i, j) of warp w for
tile (bi, bj): the C fragment is loaded from shared memory (line 309), scaled
by beta / alpha (lines 262 and 322: beta is pre-divided by alpha once), then
the mma loop accumulates over K_TILES / CHUNK_K chunks, CHUNK_K steps each,
16 inner products each (lines 334-389). -/
def accFinal (Am Bm Cm : ℕ → ℚ) (alpha beta : ℚ) (bi bj w i j x y : ℕ) : ℚ :=
  beta / alpha * shmemC Cm bi bj (cFragRow w i x) (cFragCol w j y) +
    ∑ tc in Finset.range (K_TILES / CHUNK_K), ∑ ks in Finset.range CHUNK_K,
      ∑ kk in Finset.range K, mmaTerm Am Bm bi bj w i j x y tc ks kk

/-- Value of element (x, y) of fragment (i, j) of warp w stored back for tile
(bi, bj): the accumulator scaled by alpha (line 400); it is stored to the
shared tile image at (cFragRow, cFragCol) (lines 402-404) and streamed from
there to D (lines 410-417) at the same global offsets the C tile came from. -/
def dFragVal (Am Bm Cm : ℕ → ℚ) (alpha beta : ℚ) (bi bj w i j x y : ℕ) : ℚ :=
  alpha * accFinal Am Bm Cm alpha beta bi bj w i j x y

/-- Element (r, c) of the 128 x 128 D tile (bi, bj) computed by compute_gemm:
the warp owning it is w = 2 * (r / 32) + c / 64 (rows split by
shmem_warp_tile_ptr in 32-row bands per warp pair, columns in 64-column
halves), fragment i = (r % 32) / K, j = (c % 64) / N, element (r % K, c % N). -/
def computeGemmD (Am Bm Cm : ℕ → ℚ) (alpha beta : ℚ) (bi bj r c : ℕ) : ℚ :=
  dFragVal Am Bm Cm alpha beta bi bj (2 * (r / 32) + c / 64) (r % 32 / K) (c % 64 / N)
    (r % K) (c % N)

/-- Abbreviation for one collapsed product term of the mma accumulation: the
element of A in global row bi * 16 + arow and of B in global column
bj * 16 + brow, both at reduction index q (A row-major, B column-major, inner
dimension K_GLOBAL = 4096). -/
def abProdTerm (Am Bm : ℕ → ℚ) (bi bj arow brow q : ℕ) : ℚ :=
  Am ((bi * 16 + arow) * 4096 + q) * Bm ((bj * 16 + brow) * 4096 + q)

/-- The host reference inner loop (matMultiplyOnHost, lines 494-505): entry
(row, col) of alpha * A at B before the beta * C term, with A row-major
(A[i * numAColumns + k]) and B column-major (B[j * numBRows + k]), both with
K_GLOBAL as the inner dimension. -/
def matProdAt (Am Bm : ℕ → ℚ) (row col : ℕ) : ℚ :=
  ∑ k in Finset.range K_GLOBAL, Am (row * K_GLOBAL + k) * Bm (col * K_GLOBAL + k)

/-- Statement: decoding the encoding of a block reconstructs the row-major
listing of the block exactly, and the summed popcount of the packed bitmask
words equals the length of the compacted value stream. -/
def CodecRoundTrip (P : ℕ → ℕ → Bool) (X : ℕ → ℕ → ℚ) : Prop :=
  decodeBlock (blockBits P) (encodeVals P X) = (scanPos.map fun pos => X pos.1 pos.2) ∧
    ∑ k in Finset.range 8, popcount (maskWord P k) = (encodeVals P X).length

/-- Statement: with G concurrent blocks, the (block_tile_i, block_tile_j)
assignments visited across all blocks are exactly the block-granularity tiles
of D (row and column tile indices below M_TILES and N_TILES and divisible by
the 8-tile block granularity), and no assignment is produced twice. -/
def SchedPartition (G : ℕ) : Prop :=
  (∀ ti tj : ℕ,
      (∃ b, b < G ∧ ∃ p, visitsPos G b p ∧ block_tile_i p = ti ∧ block_tile_j p = tj) ↔
        ti < M_TILES ∧ tj < N_TILES ∧ ti % BLOCK_COL_TILES = 0 ∧ tj % BLOCK_COL_TILES = 0) ∧
  ∀ b1 p1 b2 p2, b1 < G → b2 < G → visitsPos G b1 p1 → visitsPos G b2 p2 →
    block_tile_i p1 = block_tile_i p2 → block_tile_j p1 = block_tile_j p2 →
      b1 = b2 ∧ p1 = p2

/-- Statement: for warp w and lane l, every row written by the dense
chunk-copy loop of semi_sparse lies at or beyond the 256-row staged A/B
region, while the fragment loads of the compute phase read only rows of that
region, and the dense kernel chunk-copy loop covers exactly those rows. -/
def SemiStagingMiss (w l : ℕ) : Prop :=
  (∀ extra it, it < 8 → BLOCK_COL_TILES * M * 2 ≤ semiSparseCopyRow w l extra it) ∧
    (∀ it, it < 8 → abCopyShmemRow w l it < BLOCK_COL_TILES * M * 2) ∧
    (∀ i x, i < WARP_COL_TILES → x < M → aFragRow w i x < BLOCK_COL_TILES * M * 2) ∧
    (∀ j y, j < WARP_ROW_TILES → y < N → bFragRow w j y < BLOCK_COL_TILES * M * 2) ∧
    ∀ r, r < BLOCK_COL_TILES * M * 2 →
      ∃ w2 l2 it, w2 < WARPS_PER_BLOCK ∧ l2 < WARP_SIZE ∧ it < 8 ∧
        abCopyShmemRow w2 l2 it = r

/-- Statement: with G concurrent blocks, every D element in range is the
target of exactly one store of the final streaming loop, the kernel stores
only through the D pointer, and no load dereferences D. -/
def DWriteOnce (G : ℕ) : Prop :=
  (∀ r c, r < M_GLOBAL → c < N_GLOBAL → ∃! q : ℕ × ℕ × ℕ × ℕ × ℕ × ℕ, DWriteTuple G q r c) ∧
  computeGemmGlobalWriteBufs.filter (fun bf => decide (bf ≠ Buf.D)) = [] ∧
  ∀ w, (computeGemmGlobalReadBufs w).filter (fun bf => decide (bf = Buf.D)) = []

/-! Scheduler lemmas. -/

lemma UINT32_eq : UINT32 = 4294967296 := rfl

lemma blockPos_eq (G b n : ℕ) (h : b + n * G < UINT32) : blockPos G b n = b + n * G := by
  rw [UINT32_eq] at h
  induction n with
  | zero => simp [blockPos, Nat.mod_eq_of_lt, UINT32_eq]; omega
  | succ n ih =>
    have hstep : n * G ≤ (n + 1) * G := Nat.mul_le_mul_right G (Nat.le_succ n)
    have hn : b + n * G < 4294967296 := by omega
    have hmul : (n + 1) * G = n * G + G := by ring
    rw [blockPos, ih (by omega), UINT32_eq, Nat.mod_eq_of_lt (by omega)]
    omega

lemma block_tile_eq (p : ℕ) (h : p < 536870912) :
    block_tile_i p = p / 32 * 8 ∧ block_tile_j p = p % 32 * 8 := by
  have h1 : block_tile_i p = p * 8 % 4294967296 / 256 * 8 := rfl
  have h2 : block_tile_j p = p * 8 % 4294967296 % 256 := rfl
  rw [h1, h2]
  omega

lemma stopsAt_iff (p : ℕ) (h : p < 536870912) : stopsAt p ↔ 1024 ≤ p := by
  obtain ⟨hi, _⟩ := block_tile_eq p h
  unfold stopsAt
  rw [hi]
  have hM : M_TILES = 256 := rfl
  rw [hM]
  omega

lemma runsStep_iff (G b n : ℕ) (hG1 : 1 ≤ G) (hG2 : G ≤ MAX_CONCURRENT_BLOCKS)
    (hb : b < G) : runsStep G b n ↔ b + n * G < 1024 := by
  have hcap : G ≤ 32768 := hG2
  constructor
  · intro hrun
    by_contra hge
    push_neg at hge
    have hP : ∃ m, 1024 ≤ b + m * G := ⟨n, by omega⟩
    have hm0le : Nat.find hP ≤ n := Nat.find_min' hP (by omega)
    have hm0P : 1024 ≤ b + Nat.find hP * G := Nat.find_spec hP
    have hsmall : b + Nat.find hP * G < 536870912 := by
      rcases Nat.eq_zero_or_pos (Nat.find hP) with h0 | hpos
      · rw [h0]; omega
      · have hprev := Nat.find_min hP (m := Nat.find hP - 1) (by omega)
        push_neg at hprev
        obtain ⟨k, hk⟩ : ∃ k, Nat.find hP = k + 1 := ⟨Nat.find hP - 1, by omega⟩
        have hmul : (k + 1) * G = k * G + G := by ring
        rw [hk] at hprev ⊢
        simp only [Nat.add_sub_cancel] at hprev
        omega
    have hbp : blockPos G b (Nat.find hP) = b + Nat.find hP * G :=
      blockPos_eq _ _ _ (by rw [UINT32_eq]; omega)
    exact hrun (Nat.find hP) hm0le (by rw [hbp]; exact (stopsAt_iff _ hsmall).2 hm0P)
  · intro hlt m hm
    have hstep : m * G ≤ n * G := Nat.mul_le_mul_right G hm
    have hbp : blockPos G b m = b + m * G := blockPos_eq _ _ _ (by rw [UINT32_eq]; omega)
    rw [hbp, stopsAt_iff _ (by omega)]
    omega

lemma visitsPos_iff (G b p : ℕ) (hG1 : 1 ≤ G) (hG2 : G ≤ MAX_CONCURRENT_BLOCKS)
    (hb : b < G) : visitsPos G b p ↔ p < 1024 ∧ p % G = b := by
  constructor
  · rintro ⟨n, hrun, hpos⟩
    have hlt := (runsStep_iff G b n hG1 hG2 hb).1 hrun
    have hbp : blockPos G b n = b + n * G := blockPos_eq _ _ _ (by rw [UINT32_eq]; omega)
    rw [hbp] at hpos
    subst hpos
    refine ⟨hlt, ?_⟩
    rw [Nat.add_mul_mod_self_right]
    exact Nat.mod_eq_of_lt hb
  · rintro ⟨hp, hmod⟩
    have hdm := Nat.mod_add_div p G
    have hcm : G * (p / G) = p / G * G := Nat.mul_comm _ _
    refine ⟨p / G, ?_, ?_⟩
    · rw [runsStep_iff G b _ hG1 hG2 hb]
      omega
    · rw [blockPos_eq _ _ _ (by rw [UINT32_eq]; omega)]
      omega

/-- C4: for every number of concurrent thread blocks from 1 up to the device
maximum, the set of (block_tile_i, block_tile_j) output-tile assignments
produced by the grid-stride scheduler across all blocks is exactly the full
set of 128 x 128 output tiles of D, with no tile assigned twice and none
omitted. -/
theorem scheduler_tile_partition (G : ℕ) (hG1 : 1 ≤ G)
    (hG2 : G ≤ MAX_CONCURRENT_BLOCKS) : SchedPartition G := by
  constructor
  · intro ti tj
    constructor
    · rintro ⟨b, hbG, p, hvis, hti, htj⟩
      obtain ⟨hp, -⟩ := (visitsPos_iff G b p hG1 hG2 hbG).1 hvis
      obtain ⟨hi, hj⟩ := block_tile_eq p (by omega)
      have hM : M_TILES = 256 := rfl
      have hN : N_TILES = 256 := rfl
      have hB : BLOCK_COL_TILES = 8 := rfl
      rw [hM, hN, hB, ← hti, ← htj, hi, hj]
      omega
    · rintro ⟨h1, h2, h3, h4⟩
      have hM : M_TILES = 256 := rfl
      have hN : N_TILES = 256 := rfl
      have hB : BLOCK_COL_TILES = 8 := rfl
      rw [hM] at h1
      rw [hN] at h2
      rw [hB] at h3 h4
      refine ⟨(ti / 8 * 32 + tj / 8) % G, Nat.mod_lt _ (by omega), ti / 8 * 32 + tj / 8,
        (visitsPos_iff G _ _ hG1 hG2 (Nat.mod_lt _ (by omega))).2 ⟨by omega, rfl⟩, ?_, ?_⟩
      · obtain ⟨hi, -⟩ := block_tile_eq (ti / 8 * 32 + tj / 8) (by omega)
        rw [hi]; omega
      · obtain ⟨-, hj⟩ := block_tile_eq (ti / 8 * 32 + tj / 8) (by omega)
        rw [hj]; omega
  · intro b1 p1 b2 p2 hb1 hb2 hv1 hv2 hti htj
    obtain ⟨hp1, hm1⟩ := (visitsPos_iff G b1 p1 hG1 hG2 hb1).1 hv1
    obtain ⟨hp2, hm2⟩ := (visitsPos_iff G b2 p2 hG1 hG2 hb2).1 hv2
    obtain ⟨hi1, hj1⟩ := block_tile_eq p1 (by omega)
    obtain ⟨hi2, hj2⟩ := block_tile_eq p2 (by omega)
    rw [hi1, hi2] at hti
    rw [hj1, hj2] at htj
    have hpe : p1 = p2 := by omega
    subst hpe
    exact ⟨by omega, rfl⟩

/-- Closed witness for scheduler_tile_partition at G = 3. -/
theorem scheduler_tile_partition_witness :
    (1 ≤ 3 ∧ 3 ≤ MAX_CONCURRENT_BLOCKS) ∧ SchedPartition 3 :=
  ⟨⟨by decide, by decide⟩, scheduler_tile_partition 3 (by decide) (by decide)⟩

/-- C8: for every launch configuration with at least one thread block, each
grid-stride scheduling loop of each block terminates: some iterate of block_pos
makes block_tile_i reach M_TILES, after which the block stops issuing work. -/
theorem grid_stride_loop_terminates (G b : ℕ) (hG1 : 1 ≤ G)
    (hG2 : G ≤ MAX_CONCURRENT_BLOCKS) (hb : b < G) :
    ∃ n, M_TILES ≤ block_tile_i (blockPos G b n) := by
  have hcap : G ≤ 32768 := hG2
  refine ⟨1024, ?_⟩
  have hbp : blockPos G b 1024 = b + 1024 * G :=
    blockPos_eq _ _ _ (by rw [UINT32_eq]; omega)
  rw [hbp]
  have := (stopsAt_iff (b + 1024 * G) (by omega)).2 (by omega)
  exact this

/-- Closed witness for grid_stride_loop_terminates at G = 1, b = 0. -/
theorem grid_stride_loop_terminates_witness :
    (1 ≤ 1 ∧ 1 ≤ MAX_CONCURRENT_BLOCKS ∧ 0 < 1) ∧
      ∃ n, M_TILES ≤ block_tile_i (blockPos 1 0 n) :=
  ⟨⟨by decide, by decide, by decide⟩,
    grid_stride_loop_terminates 1 0 (by decide) (by decide) (by decide)⟩

/-! Codec lemmas. -/

lemma popcount_succ (n : ℕ) : popcount (n + 1) = (n + 1) % 2 + popcount ((n + 1) / 2) := by
  rw [popcount]

lemma popcount_two_mul (m : ℕ) : popcount (2 * m) = popcount m := by
  cases m with
  | zero => rfl
  | succ k =>
    have h : 2 * (k + 1) = 2 * k + 1 + 1 := by ring
    rw [h, popcount_succ]
    have h2 : (2 * k + 1 + 1) % 2 = 0 := by omega
    have h3 : (2 * k + 1 + 1) / 2 = k + 1 := by omega
    rw [h2, h3, Nat.zero_add]

lemma popcount_two_mul_add_one (m : ℕ) : popcount (2 * m + 1) = popcount m + 1 := by
  rw [popcount_succ]
  have h2 : (2 * m + 1) % 2 = 1 := by omega
  have h3 : (2 * m + 1) / 2 = m := by omega
  rw [h2, h3]
  omega

lemma popcount_zero : popcount 0 = 0 := by rw [popcount]

lemma popcount_bitsToNat (l : List Bool) :
    popcount (bitsToNat l) = (l.filter fun bb => bb).length := by
  induction l with
  | nil => simp [bitsToNat, popcount_zero]
  | cons bb bs ih =>
    cases bb
    · simp [bitsToNat, popcount_two_mul, ih]
    · have h : (1 : ℕ) + 2 * bitsToNat bs = 2 * bitsToNat bs + 1 := by ring
      simp [bitsToNat, h, popcount_two_mul_add_one, ih]

lemma length_filter_flatMap {α β : Type} (l : List α) (g : α → List β) (p : β → Bool) :
    ((l.flatMap g).filter p).length = (l.map fun a => ((g a).filter p).length).sum := by
  induction l with
  | nil => rfl
  | cons a l ih => simp [List.flatMap_cons, List.filter_append, ih]

lemma sum_map_range (g : ℕ → ℕ) (n : ℕ) :
    ((List.range n).map g).sum = ∑ i in Finset.range n, g i := by
  induction n with
  | zero => rfl
  | succ n ih =>
    rw [List.range_succ, List.map_append, List.sum_append, Finset.sum_range_succ, ih]
    simp

lemma sum_range_pair (f : ℕ → ℕ) (n : ℕ) :
    ∑ k in Finset.range n, (f (2 * k) + f (2 * k + 1)) = ∑ i in Finset.range (2 * n), f i := by
  induction n with
  | zero => rfl
  | succ n ih =>
    have h : 2 * (n + 1) = 2 * n + 1 + 1 := by ring
    rw [Finset.sum_range_succ, ih, h, Finset.sum_range_succ, Finset.sum_range_succ]
    ring

lemma popcount_maskWord (P : ℕ → ℕ → Bool) (k : ℕ) :
    popcount (maskWord P k) = rowNZCount P (2 * k) + rowNZCount P (2 * k + 1) := by
  unfold maskWord wordBits rowNZCount
  rw [popcount_bitsToNat, List.filter_append, List.length_append]
  have h : ∀ ii : ℕ,
      (((List.range TILING_SIZE).map fun jj => P ii jj).filter fun bb => bb).length =
        ((List.range TILING_SIZE).filter fun jj => P ii jj).length := by
    intro ii
    rw [List.filter_map, List.length_map]
    rfl
  rw [h, h]

lemma popcount_mask_total (P : ℕ → ℕ → Bool) :
    ∑ k in Finset.range 8, popcount (maskWord P k) =
      (scanPos.filter fun pos => P pos.1 pos.2).length := by
  have h16 : (16 : ℕ) = 2 * 8 := by norm_num
  calc ∑ k in Finset.range 8, popcount (maskWord P k)
      = ∑ k in Finset.range 8, (rowNZCount P (2 * k) + rowNZCount P (2 * k + 1)) :=
        Finset.sum_congr rfl fun k _ => popcount_maskWord P k
    _ = ∑ i in Finset.range (2 * 8), rowNZCount P i := sum_range_pair _ 8
    _ = (scanPos.filter fun pos => P pos.1 pos.2).length := by
        unfold scanPos
        rw [length_filter_flatMap]
        have h : ∀ ii : ℕ,
            ((((List.range TILING_SIZE).map fun jj => ((ii, jj) : ℕ × ℕ)).filter
                fun pos => P pos.1 pos.2).length) = rowNZCount P ii := by
          intro ii
          rw [List.filter_map, List.length_map]
          rfl
        have hmaps : ((List.range TILING_SIZE).map fun ii =>
            (((List.range TILING_SIZE).map fun jj => ((ii, jj) : ℕ × ℕ)).filter
              fun pos => P pos.1 pos.2).length) =
            (List.range TILING_SIZE).map fun ii => rowNZCount P ii :=
          List.map_congr_left fun ii _ => h ii
        rw [hmaps, sum_map_range]
        rfl

lemma decodeBlock_filter {α : Type} (l : List α) (p : α → Bool) (f : α → ℚ)
    (h : ∀ a ∈ l, p a = false → f a = 0) :
    decodeBlock (l.map p) ((l.filter p).map f) = l.map f := by
  induction l with
  | nil => rfl
  | cons a l ih =>
    have ihl := ih fun b hb hf => h b (List.mem_cons_of_mem _ hb) hf
    by_cases hpa : p a
    · simp [List.filter_cons, hpa, decodeBlock, ihl]
    · have hfa : f a = 0 := h a (List.mem_cons_self _ _) (by simpa using hpa)
      simp [List.filter_cons, hpa, decodeBlock, hfa, ihl]

/-- C3: for every legal dense 16 x 16 block (any zero-info pattern P together
with values X that vanish wherever the pattern is unset, which is exactly what
init_host_matrices produces), expanding the compacted value stream back into
the positions indicated by the bitmask, with unset-bit positions zero,
reconstructs the block exactly, and the popcount of the bitmask equals the
number of values in the compacted stream. -/
theorem codec_round_trip (P : ℕ → ℕ → Bool) (X : ℕ → ℕ → ℚ)
    (hlegal : ∀ ii, ii < TILING_SIZE → ∀ jj, jj < TILING_SIZE →
      P ii jj = false → X ii jj = 0) : CodecRoundTrip P X := by
  constructor
  · unfold blockBits encodeVals
    refine decodeBlock_filter scanPos _ _ ?_
    rintro ⟨ii, jj⟩ hmem hfalse
    simp only [scanPos, List.mem_flatMap, List.mem_map, List.mem_range] at hmem
    obtain ⟨ii2, hii2, jj2, hjj2, heq⟩ := hmem
    injection heq with e1 e2
    subst e1
    subst e2
    exact hlegal ii2 hii2 jj2 hjj2 hfalse
  · rw [popcount_mask_total]
    unfold encodeVals
    rw [List.length_map]

/-- Closed witness for codec_round_trip: a checkerboard pattern with value 2
at flagged positions. -/
theorem codec_round_trip_witness :
    (∀ ii, ii < TILING_SIZE → ∀ jj, jj < TILING_SIZE →
        decide ((ii + jj) % 2 = 0) = false →
        (if (ii + jj) % 2 = 0 then (2 : ℚ) else 0) = 0) ∧
      CodecRoundTrip (fun ii jj => decide ((ii + jj) % 2 = 0))
        (fun ii jj => if (ii + jj) % 2 = 0 then (2 : ℚ) else 0) :=
  ⟨by decide,
    codec_round_trip (fun ii jj => decide ((ii + jj) % 2 = 0))
      (fun ii jj => if (ii + jj) % 2 = 0 then (2 : ℚ) else 0) (by decide)⟩

/-- C7: for every 16 x 16 block of a sparse-encoded operand (the encoder is
parameterized here by an arbitrary whole-matrix zero-info pattern, covering
both the A and the B instance), the popcount of the block bitmask equals the
difference of the prefix-count table at this block and at the previous block
(with the entry before block 0 taken as 0), and the table is monotonically
non-decreasing. -/
theorem running_count_matches_popcount (zi : ℕ → Bool) (bi : ℕ) :
    ∑ k in Finset.range 8, popcount (maskWord (blockPattern zi bi) k) =
        tsize_info zi bi - (if bi = 0 then 0 else tsize_info zi (bi - 1)) ∧
      (if bi = 0 then 0 else tsize_info zi (bi - 1)) ≤ tsize_info zi bi := by
  have hpm := popcount_mask_total (blockPattern zi bi)
  have hcnt : (scanPos.filter fun pos => blockPattern zi bi pos.1 pos.2).length =
      blockNZCount zi bi := rfl
  rw [hcnt] at hpm
  cases bi with
  | zero =>
    refine ⟨?_, by simp⟩
    rw [hpm]
    simp [tsize_info]
  | succ b2 =>
    refine ⟨?_, ?_⟩
    · rw [hpm]
      simp only [Nat.succ_ne_zero, if_false, Nat.succ_sub_one, tsize_info]
      omega
    · simp only [Nat.succ_ne_zero, if_false, Nat.succ_sub_one, tsize_info]
      omega

/-- Closed witness for running_count_matches_popcount at the all-false pattern,
block 0. -/
theorem running_count_matches_popcount_witness :
    ∑ k in Finset.range 8, popcount (maskWord (blockPattern (fun _ => false) 0) k) =
        tsize_info (fun _ => false) 0 -
          (if (0 : ℕ) = 0 then 0 else tsize_info (fun _ => false) (0 - 1)) ∧
      (if (0 : ℕ) = 0 then 0 else tsize_info (fun _ => false) (0 - 1)) ≤
        tsize_info (fun _ => false) 0 :=
  running_count_matches_popcount (fun _ => false) 0

/-! The B-path of init_host_matrices (C5). -/

lemma b_new_stream_empty (a : ℕ → ℚ) : b_new_stream a = [] := by
  unfold b_new_stream B_zero_info
  simp

set_option maxRecDepth 4000 in
lemma scanPos_length : scanPos.length = 256 := by decide

lemma length_flatMap_eq {α β : Type} (l : List α) (g : α → List β) :
    (l.flatMap g).length = (l.map fun a => (g a).length).sum := by
  induction l with
  | nil => rfl
  | cons a l ih => simp [List.flatMap_cons, ih]

lemma matScan_length : matScan.length = NUM_BLOCKS * 256 := by
  unfold matScan
  rw [length_flatMap_eq]
  have h : ((List.range NUM_BLOCKS).map fun bi =>
      (scanPos.map fun pos => blockFlat bi pos).length) =
      (List.range NUM_BLOCKS).map fun _ => 256 :=
    List.map_congr_left fun bi _ => by rw [List.length_map, scanPos_length]
  rw [h, sum_map_range]
  rw [Finset.sum_const, Finset.card_range, smul_eq_mul]

lemma matrixNonzeroVals_ones_length :
    (matrixNonzeroVals fun _ => (1 : ℚ)).length = NUM_BLOCKS * 256 := by
  unfold matrixNonzeroVals
  rw [List.length_map]
  have h : (matScan.filter fun _ => decide ((1 : ℚ) ≠ 0)) = matScan := by
    simp
  rw [h, matScan_length]

/-- C5 (exhibit of the defect): the compacted stream the B loop of
init_host_matrices produces is empty for every input, because B_zero_info is
never set; yet an operand matrix that is identically 1 has
NUM_BLOCKS * 256 = 16777216 nonzero values in scan order, so the stream does
not contain the operand nonzero values (and the appended value, were the guard
ever true, would be read from a, line 222). -/
theorem b_encoder_stream_mismatch :
    (∀ a : ℕ → ℚ, b_new_stream a = []) ∧
      (matrixNonzeroVals fun _ => (1 : ℚ)).length = NUM_BLOCKS * 256 :=
  ⟨b_new_stream_empty, matrixNonzeroVals_ones_length⟩

/-! Buffer dereference summary of semi_sparse (C10). -/

/-- C10: the body of semi_sparse never dereferences its six sparse-specific
parameters A_new, B_new, A_sparse_info, A_tsize_info, B_sparse_info,
B_tsize_info: every global-memory dereference goes through C, D, or through
the reinterpreted dense A/B pointers, for every warp.  Consequently the
output D cannot depend on the contents of those six arrays. -/
theorem semi_sparse_ignores_sparse_params (w : ℕ) :
    (semiSparseDerefBufs w).filter (fun bf => decide (bf ∈ sparseParamBufs)) = [] := by
  unfold semiSparseDerefBufs
  by_cases hw : w < 4
  · simp only [if_pos hw]
    rfl
  · simp only [if_neg hw]
    rfl

/-- Closed witness for b_encoder_stream_mismatch applied to the zero matrix:
the first conjunct instantiated at a = 0. -/
theorem b_encoder_stream_mismatch_witness :
    b_new_stream (fun _ => (0 : ℚ)) = [] :=
  b_encoder_stream_mismatch.1 fun _ => (0 : ℚ)

/-- Closed witness for semi_sparse_ignores_sparse_params at warp 0. -/
theorem semi_sparse_ignores_sparse_params_witness :
    (semiSparseDerefBufs 0).filter (fun bf => decide (bf ∈ sparseParamBufs)) = [] :=
  semi_sparse_ignores_sparse_params 0

/-! Staging-row drift of semi_sparse (C2). -/

lemma abCopyShmemRow_eq (w l it : ℕ) (hw : w < 8) :
    abCopyShmemRow w l it = 32 * w + l / 8 + 4 * it := by
  unfold abCopyShmemRow
  have h1 : M = 16 := rfl
  have h2 : N = 16 := rfl
  have h3 : BLOCK_COL_TILES = 8 := rfl
  have h4 : CHUNK_COPY_LINE_LANES = 8 := rfl
  have h5 : CHUNK_COPY_LINES_PER_WARP = 4 := rfl
  rw [h1, h2, h3, h4, h5]
  by_cases hw4 : w < 4
  · rw [if_pos hw4]
    omega
  · rw [if_neg hw4]
    omega

/-- C2 (exhibit of the defect): for every warp and lane, the rows written by
the dense chunk-copy loop of semi_sparse all lie at or beyond row 256 (the
shmem_idx drift of its inserted staging loops), whereas the compute phase of
the kernel reads A fragments and B fragments only from rows below 256, and the
dense kernel chunk-copy loop writes exactly the rows below 256.  The sparse
path therefore never stages the A/B data the compute phase consumes. -/
theorem semi_sparse_staging_misses_read_region (w l : ℕ) (hw : w < WARPS_PER_BLOCK)
    (hl : l < WARP_SIZE) : SemiStagingMiss w l := by
  have hw8 : w < 8 := hw
  have hl32 : l < 32 := hl
  have hBM : BLOCK_COL_TILES * M * 2 = 256 := rfl
  refine ⟨?_, ?_, ?_, ?_, ?_⟩
  · intro extra it hit
    unfold semiSparseCopyRow
    have h5 : CHUNK_COPY_LINES_PER_WARP = 4 := rfl
    rw [h5, abCopyShmemRow_eq w l 0 hw8, hBM]
    omega
  · intro it hit
    rw [abCopyShmemRow_eq w l it hw8, hBM]
    omega
  · intro i x hi hx
    have hWCT : WARP_COL_TILES = 2 := rfl
    have hM : M = 16 := rfl
    have hBCT : BLOCK_COL_TILES = 8 := rfl
    rw [hWCT] at hi
    rw [hM] at hx
    unfold aFragRow
    rw [hM, hBCT]
    omega
  · intro j y hj hy
    have hWRT : WARP_ROW_TILES = 4 := rfl
    have hN : N = 16 := rfl
    rw [hWRT] at hj
    rw [hN] at hy
    unfold bFragRow
    have hB : BLOCK_COL_TILES * M = 128 := rfl
    rw [hN, hB, hWRT]
    omega
  · intro r hr
    rw [hBM] at hr
    refine ⟨r / 32, r % 32 % 4 * 8, r % 32 / 4, by show _ < 8; omega,
      by show _ < 32; omega, by omega, ?_⟩
    rw [abCopyShmemRow_eq _ _ _ (by omega)]
    omega

/-- Closed witness for semi_sparse_staging_misses_read_region at warp 0,
lane 0. -/
theorem semi_sparse_staging_misses_read_region_witness :
    (0 < WARPS_PER_BLOCK ∧ 0 < WARP_SIZE) ∧ SemiStagingMiss 0 0 :=
  ⟨⟨by decide, by decide⟩,
    semi_sparse_staging_misses_read_region 0 0 (by decide) (by decide)⟩

/-! The D write map (C9). -/

lemma dCopyRow_eq (p w i : ℕ) (hp : p < 1024) :
    dCopyRow p w i = (p / 32 * 8 + w) * 16 + i := by
  unfold dCopyRow
  obtain ⟨hi, -⟩ := block_tile_eq p (by omega)
  rw [hi]
  have hM : M = 16 := rfl
  rw [hM]

lemma dCopyCol_eq (p l t : ℕ) (hp : p < 1024) :
    dCopyCol p l t = p % 32 * 8 * 16 + 4 * l + t := by
  unfold dCopyCol
  obtain ⟨-, hj⟩ := block_tile_eq p (by omega)
  rw [hj]
  have hN : N = 16 := rfl
  rw [hN]

lemma DWriteTuple_iff (G b n w i l t r c : ℕ) (hG1 : 1 ≤ G)
    (hG2 : G ≤ MAX_CONCURRENT_BLOCKS) :
    DWriteTuple G (b, n, w, i, l, t) r c ↔
      b < G ∧ b + n * G < 1024 ∧ w < 8 ∧ i < 16 ∧ l < 32 ∧ t < 4 ∧
        ((b + n * G) / 32 * 8 + w) * 16 + i = r ∧
        (b + n * G) % 32 * 8 * 16 + 4 * l + t = c := by
  unfold DWriteTuple
  constructor
  · rintro ⟨hb, hrun, hw, hi, hl, ht, hrow, hcol⟩
    have hlt := (runsStep_iff G b n hG1 hG2 hb).1 hrun
    have hbp : blockPos G b n = b + n * G := blockPos_eq _ _ _ (by rw [UINT32_eq]; omega)
    rw [hbp, dCopyRow_eq _ _ _ hlt] at hrow
    rw [hbp, dCopyCol_eq _ _ _ hlt] at hcol
    exact ⟨hb, hlt, hw, hi, hl, ht, hrow, hcol⟩
  · rintro ⟨hb, hlt, hw, hi, hl, ht, hrow, hcol⟩
    have hbp : blockPos G b n = b + n * G := blockPos_eq _ _ _ (by rw [UINT32_eq]; omega)
    refine ⟨hb, (runsStep_iff G b n hG1 hG2 hb).2 hlt, hw, hi, hl, ht, ?_, ?_⟩
    · rw [hbp, dCopyRow_eq _ _ _ hlt]
      exact hrow
    · rw [hbp, dCopyCol_eq _ _ _ hlt]
      exact hcol

/-- C9: over a full kernel execution with G concurrent blocks, every element
of D in range is written by exactly one store of the final streaming loop of
compute_gemm, the kernel stores to global memory only through the D pointer
(A, B and C are never written), and no load dereferences D (so the initial
contents of D cannot influence the result). -/
theorem d_write_once (G : ℕ) (hG1 : 1 ≤ G) (hG2 : G ≤ MAX_CONCURRENT_BLOCKS) :
    DWriteOnce G := by
  refine ⟨?_, rfl, ?_⟩
  · intro r c hr hc
    have hMeq : M_GLOBAL = 4096 := rfl
    have hNeq : N_GLOBAL = 4096 := rfl
    rw [hMeq] at hr
    rw [hNeq] at hc
    have hbG : (r / 128 * 32 + c / 128) % G < G := Nat.mod_lt _ (by omega)
    have hdm := Nat.mod_add_div (r / 128 * 32 + c / 128) G
    have hcm : G * ((r / 128 * 32 + c / 128) / G) = (r / 128 * 32 + c / 128) / G * G :=
      Nat.mul_comm _ _
    refine ⟨((r / 128 * 32 + c / 128) % G, (r / 128 * 32 + c / 128) / G,
      r / 16 % 8, r % 16, c % 128 / 4, c % 4), ?_, ?_⟩
    · show DWriteTuple G _ r c
      rw [DWriteTuple_iff _ _ _ _ _ _ _ _ _ hG1 hG2]
      refine ⟨hbG, by omega, by omega, by omega, by omega, by omega, by omega, by omega⟩
    · rintro ⟨b, n, w, i, l, t⟩ hq
      have hq2 : DWriteTuple G (b, n, w, i, l, t) r c := hq
      rw [DWriteTuple_iff _ _ _ _ _ _ _ _ _ hG1 hG2] at hq2
      obtain ⟨hb, hlt, hw, hi, hl, ht, hrow, hcol⟩ := hq2
      have hp2 : b + n * G = r / 128 * 32 + c / 128 := by omega
      have hbeq : b = (r / 128 * 32 + c / 128) % G := by
        rw [← hp2, Nat.add_mul_mod_self_right, Nat.mod_eq_of_lt hb]
      have hneq : n = (r / 128 * 32 + c / 128) / G := by
        have h2 : n * G = (r / 128 * 32 + c / 128) / G * G := by omega
        exact Nat.eq_of_mul_eq_mul_right (by omega) h2
      have hweq : w = r / 16 % 8 := by omega
      have hieq : i = r % 16 := by omega
      have hleq : l = c % 128 / 4 := by omega
      have hteq : t = c % 4 := by omega
      simp only [Prod.mk.injEq]
      exact ⟨hbeq, hneq, hweq, hieq, hleq, hteq⟩
  · intro w
    unfold computeGemmGlobalReadBufs
    by_cases hw : w < 4
    · simp only [if_pos hw]
      rfl
    · simp only [if_neg hw]
      rfl

/-- Closed witness for d_write_once at G = 1. -/
theorem d_write_once_witness :
    (1 ≤ 1 ∧ 1 ≤ MAX_CONCURRENT_BLOCKS) ∧ DWriteOnce 1 :=
  ⟨⟨by decide, by decide⟩, d_write_once 1 (by decide) (by decide)⟩

/-! Value collapse of compute_gemm (C6). -/

lemma sum_range_shift (f : ℕ → ℚ) (s n : ℕ) :
    ∑ k in Finset.range (s + n), f k =
      (∑ k in Finset.range s, f k) + ∑ b2 in Finset.range n, f (s + b2) := by
  induction n with
  | zero => simp
  | succ n ih =>
    have h : s + (n + 1) = s + n + 1 := by ring
    rw [h, Finset.sum_range_succ, ih, Finset.sum_range_succ]
    ring

lemma sum_range_mul_eq (f : ℕ → ℚ) (m n : ℕ) :
    ∑ a in Finset.range m, ∑ b2 in Finset.range n, f (n * a + b2) =
      ∑ k in Finset.range (m * n), f k := by
  induction m with
  | zero => simp
  | succ m ih =>
    have h : (m + 1) * n = m * n + n := by ring
    rw [Finset.sum_range_succ, ih, h, sum_range_shift]
    congr 1
    refine Finset.sum_congr rfl fun b2 _ => ?_
    congr 1
    ring

lemma mmaTerm_eq (Am Bm : ℕ → ℚ) (bi bj w i j x y tc ks kk : ℕ)
    (hw : w < 8) (hi : i < 2) (hj : j < 4) (hx : x < 16) (hy : y < 16) :
    mmaTerm Am Bm bi bj w i j x y tc ks kk =
      abProdTerm Am Bm bi bj (w / 2 * 32 + i * 16 + x) (w % 2 * 64 + j * 16 + y)
        (64 * tc + (16 * ks + kk)) := by
  unfold mmaTerm shmemAB aFragRow bFragRow abProdTerm
  have hBCM : BLOCK_COL_TILES * M = 128 := rfl
  have hM : M = 16 := rfl
  have hN : N = 16 := rfl
  have hK : K = 16 := rfl
  have hKG : K_GLOBAL = 4096 := rfl
  have hCK : CHUNK_K = 4 := rfl
  have hWRT : WARP_ROW_TILES = 4 := rfl
  rw [hBCM, hM, hN, hK, hKG, hCK, hWRT]
  rw [if_pos (by omega), if_neg (by omega)]
  exact congrArg₂ (fun u v => Am u * Bm v) (by omega) (by omega)

lemma accFinal_collapse (Am Bm Cm : ℕ → ℚ) (alpha beta : ℚ) (bi bj w i j x y : ℕ)
    (hw : w < 8) (hi : i < 2) (hj : j < 4) (hx : x < 16) (hy : y < 16) :
    accFinal Am Bm Cm alpha beta bi bj w i j x y =
      beta / alpha * shmemC Cm bi bj (cFragRow w i x) (cFragCol w j y) +
        ∑ k in Finset.range 4096,
          abProdTerm Am Bm bi bj (w / 2 * 32 + i * 16 + x) (w % 2 * 64 + j * 16 + y) k := by
  unfold accFinal
  refine congrArg₂ (fun u v => u + v) rfl ?_
  have hKT : K_TILES / CHUNK_K = 64 := rfl
  have hCK : CHUNK_K = 4 := rfl
  have hK : K = 16 := rfl
  rw [hKT, hCK, hK]
  have h1 : ∀ tc : ℕ, ∑ ks in Finset.range 4, ∑ kk in Finset.range 16,
      mmaTerm Am Bm bi bj w i j x y tc ks kk =
      ∑ q in Finset.range 64,
        abProdTerm Am Bm bi bj (w / 2 * 32 + i * 16 + x) (w % 2 * 64 + j * 16 + y)
          (64 * tc + q) := by
    intro tc
    have hmm := sum_range_mul_eq (fun q =>
      abProdTerm Am Bm bi bj (w / 2 * 32 + i * 16 + x) (w % 2 * 64 + j * 16 + y)
        (64 * tc + q)) 4 16
    rw [show (4 * 16 : ℕ) = 64 from rfl] at hmm
    rw [← hmm]
    refine Finset.sum_congr rfl fun ks _ => Finset.sum_congr rfl fun kk _ => ?_
    rw [mmaTerm_eq Am Bm bi bj w i j x y tc ks kk hw hi hj hx hy]
  rw [Finset.sum_congr rfl fun tc _ => h1 tc]
  have h2 := sum_range_mul_eq (abProdTerm Am Bm bi bj (w / 2 * 32 + i * 16 + x)
    (w % 2 * 64 + j * 16 + y)) 64 64
  rw [show (64 * 64 : ℕ) = 4096 from rfl] at h2
  exact h2

/-- C6: for beta = 0, any alpha with alpha different from 0, and C containing
arbitrary values, the output D element computed by compute_gemm equals exactly
alpha times the A at B product entry of the host reference, with no residual
contribution from C: the pre-scaled beta / alpha is exactly zero and kills the
loaded C fragment. -/
theorem beta_zero_exact (Am Bm Cm : ℕ → ℚ) (alpha : ℚ) (halpha : alpha ≠ 0)
    (bi bj r c : ℕ) (hr : r < BLOCK_COL_TILES * M) (hc : c < BLOCK_COL_TILES * M) :
    computeGemmD Am Bm Cm alpha 0 bi bj r c =
      alpha * matProdAt Am Bm (bi * M + r) (bj * N + c) := by
  have hBM : BLOCK_COL_TILES * M = 128 := rfl
  rw [hBM] at hr hc
  unfold computeGemmD dFragVal
  rw [accFinal_collapse Am Bm Cm alpha 0 bi bj _ _ _ _ _
    (by show 2 * (r / 32) + c / 64 < 8; omega)
    (by show r % 32 / K < 2; have hK : K = 16 := rfl; rw [hK]; omega)
    (by show c % 64 / N < 4; have hN : N = 16 := rfl; rw [hN]; omega)
    (by show r % K < 16; have hK : K = 16 := rfl; rw [hK]; omega)
    (by show c % N < 16; have hN : N = 16 := rfl; rw [hN]; omega)]
  rw [zero_div, zero_mul, zero_add]
  unfold matProdAt abProdTerm
  have hK : K = 16 := rfl
  have hN : N = 16 := rfl
  have hM : M = 16 := rfl
  have hKG : K_GLOBAL = 4096 := rfl
  rw [hK, hN, hM, hKG]
  refine congrArg (fun u => alpha * u) ?_
  refine Finset.sum_congr rfl fun q _ => ?_
  exact congrArg₂ (fun u v => Am u * Bm v) (by omega) (by omega)

/-- Closed witness for beta_zero_exact with alpha = 2 and constant-1 inputs at
tile (0, 0), element (0, 0). -/
theorem beta_zero_exact_witness :
    ((2 : ℚ) ≠ 0 ∧ 0 < BLOCK_COL_TILES * M) ∧
      computeGemmD (fun _ => 1) (fun _ => 1) (fun _ => 1) 2 0 0 0 0 0 =
        2 * matProdAt (fun _ => 1) (fun _ => 1) (0 * M + 0) (0 * N + 0) :=
  ⟨⟨by norm_num, by decide⟩,
    beta_zero_exact (fun _ => 1) (fun _ => 1) (fun _ => 1) 2 (by norm_num) 0 0 0 0
      (by decide) (by decide)⟩

end SemiSparseMM
